import Mathlib

/-!
Verification development for the Protatica tactical-analysis service
(`src/services/geminiService.ts`).

The TypeScript source is shallowly embedded as executable Lean functions:
pure helpers (`extractYouTubeId`, `parseJsonResponse`, `normalizeTitle`,
`titlesLooselyMatch`, the source-deduplication filter) become Lean
functions translated clause by clause; the two asynchronous pipelines
(`getAnalysisFromWeb`, `getAnalysisFromFile`) become functions from an
explicit environment (the values the external services would return) to
an outcome together with the ordered list of I/O operations performed;
the callback-driven frame sampler becomes a recursion over an abstract
video resource.  Platform facilities used by the source (the WHATWG URL
parser, `JSON.parse`, JS string methods) are modelled explicitly; each
model notes the simplifications it makes.
-/

/-- The `\x7b` character, written via its code point. -/
def lbrace : Char := Char.ofNat 123

/-- The `\x7d` character, written via its code point. -/
def rbrace : Char := Char.ofNat 125

/-- JS `\s` / `trim()` whitespace class (ECMA-262 WhiteSpace ∪ LineTerminator):
tab, LF, VT, FF, CR, space, NBSP, Ogham space, the U+2000–U+200A range,
LS, PS, NNBSP, MMSP, ideographic space, and BOM. -/
def jsWhitespace (c : Char) : Bool :=
  let n := c.toNat
  (9 ≤ n ∧ n ≤ 13) ∨ n = 32 ∨ n = 0xa0 ∨ n = 0x1680 ∨
  (0x2000 ≤ n ∧ n ≤ 0x200a) ∨ n = 0x2028 ∨ n = 0x2029 ∨
  n = 0x202f ∨ n = 0x205f ∨ n = 0x3000 ∨ n = 0xfeff

/-- Model of JS `String.prototype.trim`: strip `jsWhitespace` from both ends. -/
def jsTrim (s : String) : String :=
  String.mk (((s.toList.dropWhile jsWhitespace).reverse.dropWhile jsWhitespace).reverse)

/-- Model of JS `String.prototype.toLowerCase`, exact on ASCII input
(the full Unicode case map is not modelled; titles compared in this
development are ASCII). -/
def jsToLower (s : String) : String := String.mk (s.toList.map Char.toLower)

/-- `needle` occurs as a contiguous subsequence of `hay`
(model of JS `String.prototype.includes` on the char level). -/
def containsSeq (needle : List Char) : List Char → Bool
  | [] => needle.isEmpty
  | c :: rest => needle.isPrefixOf (c :: rest) || containsSeq needle rest

/-- Model of JS `String.prototype.endsWith`. -/
def endsWithStr (s suffix : String) : Bool := suffix.toList.isSuffixOf s.toList

/-- JSON/model value produced by `JSON.parse`.  Number literals keep their
lexeme (no claim in this development compares numeric values). -/
inductive JValue where
  | jnull
  | jbool (b : Bool)
  | jnum (lexeme : String)
  | jstr (s : String)
  | jarr (elems : List JValue)
  | jobj (fields : List (String × JValue))

/-- Whitespace accepted by `JSON.parse` between tokens: space, tab, LF, CR. -/
def jsonWs (c : Char) : Bool := c = ' ' ∨ c = '\t' ∨ c = '\n' ∨ c = '\r'

/-- Drop leading JSON whitespace. -/
def skipWs (cs : List Char) : List Char := cs.dropWhile jsonWs

/-- Hex digit value. -/
def hexDigitVal (c : Char) : Option Nat :=
  if '0' ≤ c ∧ c ≤ '9' then some (c.toNat - '0'.toNat)
  else if 'a' ≤ c ∧ c ≤ 'f' then some (c.toNat - 'a'.toNat + 10)
  else if 'A' ≤ c ∧ c ≤ 'F' then some (c.toNat - 'A'.toNat + 10)
  else none

/-- Decimal digit test for the JSON number grammar. -/
def isJsonDigit (c : Char) : Bool := '0' ≤ c ∧ c ≤ '9'

/-- Parse the body of a JSON string literal (opening quote already
consumed); returns the decoded characters and the input after the
closing quote.  Escapes follow `JSON.parse`; a `\u` escape denoting a
lone surrogate is rejected here (a JS string can hold it, a Lean `Char`
cannot — unreachable for the ASCII inputs of this development). -/
def parseStrChars : List Char → Option (List Char × List Char)
  | [] => none
  | '"' :: rest => some ([], rest)
  | '\\' :: '"' :: rest => (parseStrChars rest).map (fun p => ('"' :: p.1, p.2))
  | '\\' :: '\\' :: rest => (parseStrChars rest).map (fun p => ('\\' :: p.1, p.2))
  | '\\' :: '/' :: rest => (parseStrChars rest).map (fun p => ('/' :: p.1, p.2))
  | '\\' :: 'b' :: rest => (parseStrChars rest).map (fun p => ('\x08' :: p.1, p.2))
  | '\\' :: 'f' :: rest => (parseStrChars rest).map (fun p => ('\x0C' :: p.1, p.2))
  | '\\' :: 'n' :: rest => (parseStrChars rest).map (fun p => ('\n' :: p.1, p.2))
  | '\\' :: 'r' :: rest => (parseStrChars rest).map (fun p => ('\r' :: p.1, p.2))
  | '\\' :: 't' :: rest => (parseStrChars rest).map (fun p => ('\t' :: p.1, p.2))
  | '\\' :: 'u' :: h1 :: h2 :: h3 :: h4 :: rest =>
    match hexDigitVal h1, hexDigitVal h2, hexDigitVal h3, hexDigitVal h4 with
    | some a, some b, some c, some d =>
      let n := ((a * 16 + b) * 16 + c) * 16 + d
      if h : n < 0xd800 then
        (parseStrChars rest).map (fun p => (Char.ofNatAux n (by omega) :: p.1, p.2))
      else if h2 : 0xdfff < n ∧ n < 0x110000 then
        (parseStrChars rest).map (fun p => (Char.ofNatAux n (by omega) :: p.1, p.2))
      else none
    | _, _, _, _ => none
  | '\\' :: _ => none
  | c :: rest =>
    if c.toNat < 32 then none
    else (parseStrChars rest).map (fun p => (c :: p.1, p.2))

/-- Parse a JSON number literal, returning its lexeme and the rest of the
input (grammar `-?(0|[1-9][0-9]*)(\.[0-9]+)?([eE][+-]?[0-9]+)?`). -/
def parseNum (cs : List Char) : Option (List Char × List Char) :=
  let (signChars, cs1) : List Char × List Char :=
    match cs with
    | '-' :: r => (['-'], r)
    | _ => ([], cs)
  match cs1 with
  | [] => none
  | c :: r =>
    let intPart? : Option (List Char × List Char) :=
      if c = '0' then some ([c], r)
      else if isJsonDigit c then
        let (ds, r2) := r.span isJsonDigit
        some (c :: ds, r2)
      else none
    match intPart? with
    | none => none
    | some (intChars, r2) =>
      let fracPart? : Option (List Char × List Char) :=
        match r2 with
        | '.' :: r3 =>
          let (ds, r4) := r3.span isJsonDigit
          if ds.isEmpty then none else some ('.' :: ds, r4)
        | _ => some ([], r2)
      match fracPart? with
      | none => none
      | some (fracChars, r4) =>
        let expPart? : Option (List Char × List Char) :=
          match r4 with
          | 'e' :: r5 =>
            match r5 with
            | '+' :: r6 =>
              let (ds, r7) := r6.span isJsonDigit
              if ds.isEmpty then none else some ('e' :: '+' :: ds, r7)
            | '-' :: r6 =>
              let (ds, r7) := r6.span isJsonDigit
              if ds.isEmpty then none else some ('e' :: '-' :: ds, r7)
            | _ =>
              let (ds, r6) := r5.span isJsonDigit
              if ds.isEmpty then none else some ('e' :: ds, r6)
          | 'E' :: r5 =>
            match r5 with
            | '+' :: r6 =>
              let (ds, r7) := r6.span isJsonDigit
              if ds.isEmpty then none else some ('E' :: '+' :: ds, r7)
            | '-' :: r6 =>
              let (ds, r7) := r6.span isJsonDigit
              if ds.isEmpty then none else some ('E' :: '-' :: ds, r7)
            | _ =>
              let (ds, r6) := r5.span isJsonDigit
              if ds.isEmpty then none else some ('E' :: ds, r6)
          | _ => some ([], r4)
        match expPart? with
        | none => none
        | some (expChars, r6) =>
          some (signChars ++ intChars ++ fracChars ++ expChars, r6)

/-- Insert a key into an object under construction with JS property
semantics: an existing key is updated in place (keeping its position), a
new key is appended.  Also models a plain JS property assignment
`obj[k] = v`. -/
def setFields (fs : List (String × JValue)) (k : String) (v : JValue) :
    List (String × JValue) :=
  match fs with
  | [] => [(k, v)]
  | (k', v') :: rest => if k' = k then (k, v) :: rest else (k', v') :: setFields rest k v

mutual

/-- Parse one JSON value (leading whitespace allowed), fuelled. -/
def parseVal : Nat → List Char → Option (JValue × List Char)
  | 0, _ => none
  | fuel+1, cs =>
    match skipWs cs with
    | [] => none
    | 'n' :: 'u' :: 'l' :: 'l' :: rest => some (.jnull, rest)
    | 't' :: 'r' :: 'u' :: 'e' :: rest => some (.jbool true, rest)
    | 'f' :: 'a' :: 'l' :: 's' :: 'e' :: rest => some (.jbool false, rest)
    | '"' :: rest => (parseStrChars rest).map (fun p => (.jstr (String.mk p.1), p.2))
    | '[' :: rest =>
      (match skipWs rest with
       | ']' :: rest2 => some (.jarr [], rest2)
       | other => parseElems fuel other [])
    | c :: rest =>
      if c = lbrace then
        match skipWs rest with
        | [] => none
        | c2 :: rest2 =>
          if c2 = rbrace then some (.jobj [], rest2)
          else parseMembers fuel (c2 :: rest2) []
      else if c = '-' ∨ isJsonDigit c then
        (parseNum (c :: rest)).map (fun p => (.jnum (String.mk p.1), p.2))
      else none

/-- Parse the remaining elements of a non-empty JSON array. -/
def parseElems : Nat → List Char → List JValue → Option (JValue × List Char)
  | 0, _, _ => none
  | fuel+1, cs, acc =>
    match parseVal fuel cs with
    | none => none
    | some (v, rest) =>
      match skipWs rest with
      | ',' :: rest2 => parseElems fuel rest2 (acc ++ [v])
      | ']' :: rest2 => some (.jarr (acc ++ [v]), rest2)
      | _ => none

/-- Parse the remaining members of a non-empty JSON object
(duplicate keys follow JS: last value wins, first position kept). -/
def parseMembers : Nat → List Char → List (String × JValue) →
    Option (JValue × List Char)
  | 0, _, _ => none
  | fuel+1, cs, acc =>
    match skipWs cs with
    | '"' :: rest =>
      (match parseStrChars rest with
       | none => none
       | some (kcs, rest2) =>
         match skipWs rest2 with
         | ':' :: rest3 =>
           (match parseVal fuel rest3 with
            | none => none
            | some (v, rest4) =>
              let acc2 := setFields acc (String.mk kcs) v
              match skipWs rest4 with
              | ',' :: rest5 => parseMembers fuel rest5 acc2
              | c :: rest5 =>
                if c = rbrace then some (.jobj acc2, rest5) else none
              | [] => none)
         | _ => none)
    | _ => none

end

/-- Model of `JSON.parse` (returning `none` where JS throws a
`SyntaxError`).  Numbers keep their lexemes, so extreme exponents that a
JS engine would round to `0`/`Infinity` stay symbolic. -/
def jsonParse (s : String) : Option JValue :=
  match parseVal (s.length + 1) s.toList with
  | some (v, rest) => if skipWs rest = [] then some v else none
  | none => none

/-- First index of character `c` (JS `String.prototype.indexOf`, with
`-1` modelled as `none`). -/
def firstIdxOf (c : Char) (cs : List Char) : Option Nat := List.findIdx? (· = c) cs

/-- Last index of character `c` (JS `String.prototype.lastIndexOf`). -/
def lastIdxOf (c : Char) (cs : List Char) : Option Nat :=
  match firstIdxOf c cs.reverse with
  | none => none
  | some i => some (cs.length - 1 - i)

/-- Model of JS `String.prototype.substring(a, b)`: arguments are swapped
when `a > b`, and the half-open character range `[lo, hi)` is returned. -/
def jsSubstring (cs : List Char) (a b : Nat) : List Char :=
  (cs.take (max a b)).drop (min a b)

/-- Embedding of `parseJsonResponse` (`geminiService.ts` lines 75–85):
take the substring from the first `\x7b` to the last `\x7d` and feed it to
`JSON.parse`; absence of either brace, or a decode failure, yields
`none` (the source's `null`). -/
def parseJsonResponse (text : String) : Option JValue :=
  let cs := text.toList
  match firstIdxOf lbrace cs, lastIdxOf rbrace cs with
  | some s, some e => jsonParse (String.mk (jsSubstring cs s (e + 1)))
  | _, _ => none

/-- First value bound to key `k` in an object's field list. -/
def lookupField (fs : List (String × JValue)) (k : String) : Option JValue :=
  match fs with
  | [] => none
  | (k', v) :: rest => if k' = k then some v else lookupField rest k

/-- JS property read `obj[k]`: `undefined` (`none`) away from objects.
(Reading a named property off a JS array, string, number or boolean also
yields `undefined`; `null` receivers are always guarded by `!analysis`
checks before any read in the source.) -/
def getField (v : JValue) (k : String) : Option JValue :=
  match v with
  | .jobj fs => lookupField fs k
  | _ => none

/-- JS property write `obj[k] = v`.  On non-objects the model returns the
value unchanged: in the source a write to an array would attach a
non-index property and a strict-mode write to a primitive would throw,
but every such value is subsequently rejected by guard 4 (`getField`
returns `none` there), so no claim observes the difference. -/
def setField (o : JValue) (k : String) (v : JValue) : JValue :=
  match o with
  | .jobj fs => .jobj (setFields fs k v)
  | other => other

/-- Drop every binding of key `k`. -/
def removeKey (k : String) : List (String × JValue) → List (String × JValue)
  | [] => []
  | (k', v) :: rest => if k' = k then removeKey k rest else (k', v) :: removeKey k rest

/-- The source's `analysis.videoUrl = undefined`: observationally the key
becomes absent (reads yield `undefined`, serialization drops it), so the
model removes it. -/
def delField (o : JValue) (k : String) : JValue :=
  match o with
  | .jobj fs => .jobj (removeKey k fs)
  | other => other

/-- A JSON number literal denotes zero iff every digit of its mantissa
(the part before any exponent) is `0`.  (Extreme exponents that a JS
engine would underflow to `0` are not modelled; no claim involves
them.) -/
def numLexIsZero (lex : String) : Bool :=
  (lex.toList.takeWhile (fun c => c ≠ 'e' ∧ c ≠ 'E')).all
    (fun c => ¬ isJsonDigit c ∨ c = '0')

/-- JS truthiness of a parsed JSON value. -/
def truthy (v : JValue) : Bool :=
  match v with
  | .jnull => false
  | .jbool b => b
  | .jnum lex => ¬ numLexIsZero lex
  | .jstr s => s ≠ ""
  | .jarr _ => true
  | .jobj _ => true

/-- Relevant parts of a parsed URL as exposed by the WHATWG `URL` class:
lowercased `hostname`, `pathname`, and the query string (without the
leading `?`). -/
structure URLParts where
  hostname : String
  pathname : String
  search : String

/-- Scheme grammar `ALPHA (ALPHA | DIGIT | + | - | .)*`. -/
def schemeOk (cs : List Char) : Bool :=
  match cs with
  | [] => false
  | c :: rest =>
    c.isAlpha ∧ rest.all (fun d => d.isAlpha ∨ d.isDigit ∨ d = '+' ∨ d = '-' ∨ d = '.')

/-- Characters after the last `@` (WHATWG strips `user:pass@` userinfo
up to the last `@` of the authority). -/
def afterLastAt (cs : List Char) : List Char :=
  if cs.contains '@' then (cs.reverse.takeWhile (· ≠ '@')).reverse else cs

/-- Model of the WHATWG URL parser (`new URL(url)`) for absolute URLs of
the common `scheme://host…` form, returning `none` where the constructor
throws.  Simplifications (none observable in the claims below, which
quantify through this model): only the `scheme "://"` spelling is
recognised (no scheme-relative `\` slashes, lone-slash or slash-less
special-scheme forms), the pathname is kept verbatim (no `.`/`..` or
percent normalization, and the empty path is not rewritten to `/`, which
splits into the same segment list), IPv6 host brackets and port
validation are not modelled, and an empty host is rejected. -/
def parseURL (url : String) : Option URLParts :=
  let cs := url.toList
  let sch := cs.takeWhile (· ≠ ':')
  match cs.dropWhile (· ≠ ':') with
  | ':' :: '/' :: '/' :: r =>
    if schemeOk sch then
      let auth := r.takeWhile (fun c => c ≠ '/' ∧ c ≠ '?' ∧ c ≠ '#')
      let rest := r.drop auth.length
      let host := (afterLastAt auth).takeWhile (· ≠ ':')
      if host.isEmpty then none
      else
        let path := rest.takeWhile (fun c => c ≠ '?' ∧ c ≠ '#')
        let afterPath := rest.drop path.length
        let query : List Char :=
          match afterPath with
          | '?' :: q => q.takeWhile (· ≠ '#')
          | _ => []
        some ⟨String.mk (host.map Char.toLower), String.mk path, String.mk query⟩
    else none
  | _ => none

/-- Model of JS `String.prototype.split` with a one-character separator. -/
def splitOnChar (sep : Char) : List Char → List (List Char)
  | [] => [[]]
  | c :: rest =>
    match splitOnChar sep rest with
    | [] => if c = sep then [[], []] else [[c]]
    | g :: gs => if c = sep then [] :: g :: gs else (c :: g) :: gs

/-- Key/value of one `a=b` query-string piece, split at the first `=`
(a piece without `=` has value `""`). -/
def paramKV (piece : String) : String × String :=
  let cs := piece.toList
  let k := cs.takeWhile (· ≠ '=')
  match cs.drop k.length with
  | '=' :: v => (String.mk k, String.mk v)
  | _ => (String.mk k, "")

/-- Model of `URLSearchParams.get(name)`: first matching pair wins,
empty pieces are skipped.  Percent-decoding and `+`→space decoding are
not modelled (the claims below quantify through this model, and video
identifiers are plain `[A-Za-z0-9_-]` tokens). -/
def getSearchParam (name : String) (query : String) : Option String :=
  let pieces := ((splitOnChar '&' query.toList).map String.mk).filter (· ≠ "")
  match pieces.find? (fun p => (paramKV p).1 = name) with
  | some p => some (paramKV p).2
  | none => none

/-- Non-empty path segments, as `pathname.split("/").filter(Boolean)`. -/
def pathSegs (pathname : String) : List String :=
  ((splitOnChar '/' pathname.toList).map String.mk).filter (· ≠ "")

/-- `parts[idx + 1]` for `idx = parts.indexOf(key)`: the segment after
the first occurrence of `key`, `none` when `key` is absent or last. -/
def nextAfterFirst (key : String) : List String → Option String
  | [] => none
  | a :: rest => if a = key then rest.head? else nextAfterFirst key rest

/-- Path-shape part of the extractor (source lines 41–53): shortened
domain first, then `shorts`, then `embed`. -/
def extractFromPath (u : URLParts) : Option String :=
  if endsWithStr u.hostname "youtu.be" then (pathSegs u.pathname).head?
  else
    match nextAfterFirst "shorts" (pathSegs u.pathname) with
    | some id => some id
    | none => nextAfterFirst "embed" (pathSegs u.pathname)

/-- Embedding of `extractYouTubeId` (`geminiService.ts` lines 35–57):
a truthy `v` query parameter wins on any host; otherwise the path shapes
are tried; unparseable URLs (the source's `catch`) yield `none`. -/
def extractYouTubeId (url : String) : Option String :=
  match parseURL url with
  | none => none
  | some u =>
    match getSearchParam "v" u.search with
    | some v => if v ≠ "" then some v else extractFromPath u
    | none => extractFromPath u

/-- Embedding of `normalizeTitle` (source lines 87–92): trim, lowercase,
strip zero-width/BOM characters (U+200B–U+200D, U+FEFF), collapse
whitespace runs to a single space. -/
def stripZeroWidth (cs : List Char) : List Char :=
  cs.filter (fun c => ¬ ((0x200b ≤ c.toNat ∧ c.toNat ≤ 0x200d) ∨ c.toNat = 0xfeff))

/-- Replace each maximal run of JS whitespace by one space
(`.replace(/\s+/g, " ")`); `prevWs` records whether the previous kept
character closed a whitespace run. -/
def collapseWsAux (prevWs : Bool) : List Char → List Char
  | [] => []
  | c :: rest =>
    if jsWhitespace c then
      if prevWs then collapseWsAux true rest else ' ' :: collapseWsAux true rest
    else c :: collapseWsAux false rest

/-- Replace each maximal run of JS whitespace by one space. -/
def collapseWs (cs : List Char) : List Char := collapseWsAux false cs

/-- `normalizeTitle` from the source, stage by stage in source order. -/
def normalizeTitle (s : String) : String :=
  String.mk (collapseWs (stripZeroWidth ((jsToLower (jsTrim s)).toList)))

/-- Embedding of `titlesLooselyMatch` (source lines 94–99). -/
def titlesLooselyMatch (a b : String) : Bool :=
  let t1 := normalizeTitle a
  let t2 := normalizeTitle b
  if t1 = "" ∨ t2 = "" then false
  else t1 = t2 || containsSeq t2.toList t1.toList || containsSeq t1.toList t2.toList

/-- A citation source as pushed by the pipeline: `title` may be absent
(`chunk.web.title` can be `undefined`), `uri` is always a string there. -/
structure GroundingSource where
  title : Option String
  uri : String
deriving DecidableEq

/-- The synthetic first source the pipeline prepends (source line 249). -/
def syntheticSource (url : String) : GroundingSource :=
  ⟨some "YouTube (vídeo analisado)", url⟩

/-- The deduplication key: the trimmed `uri` (`(src.uri || "").trim()`). -/
def keyOf (s : GroundingSource) : String := jsTrim s.uri

/-- Embedding of the `.filter((src, idx, arr) => …)` call of source lines
251–255: keep a source iff its trimmed `uri` is non-empty and its index
equals the index of the first source (in the whole array) with the same
trimmed `uri`. -/
def jsDedupFilter (all : List GroundingSource) : List GroundingSource :=
  ((all.enum.filter (fun p =>
      decide (keyOf p.2 ≠ "") &&
      decide (List.findIdx? (fun s => keyOf s = keyOf p.2) all = some p.1))).map (·.2))

/-- The Source Reconciler (source lines 247–255): prepend the synthetic
original-video source, then deduplicate positionally. -/
def reconcile (originalUrl : String) (sources : List GroundingSource) :
    List GroundingSource :=
  jsDedupFilter (syntheticSource originalUrl :: sources)

/-- Remove the synthetic original-video entry when it is the first
element (identity otherwise). -/
def removeSynthetic (url : String) : List GroundingSource → List GroundingSource
  | [] => []
  | s :: rest => if s = syntheticSource url then rest else s :: rest

/-- Reference implementation of the positional deduplication used only in
proofs: keep a source iff its key is non-empty and not among `seen`, the
keys of the already-scanned portion of the array. -/
def dedupSeen (seen : List String) : List GroundingSource → List GroundingSource
  | [] => []
  | s :: rest =>
    if keyOf s = "" ∨ keyOf s ∈ seen then dedupSeen seen rest
    else s :: dedupSeen (keyOf s :: seen) rest

/-- Behaviour of one seek request issued to the video element: the
`onseeked` callback fires, the `onerror` callback fires, or neither ever
fires. -/
inductive SeekBehavior where
  | seeked
  | errored
  | silent
deriving DecidableEq

/-- Abstract video resource for the Frame Sampler: whether metadata
loads (`onloadedmetadata` vs `onerror`), and the behaviour of each
successive seek. -/
structure VideoSpec where
  loadOk : Bool
  seeks : Nat → SeekBehavior

/-- The I/O operations the pipelines perform, in order. -/
inductive IOEvent where
  | createObjectURL
  | revokeObjectURL
  | captureFrame (i : Nat)
  | fetchOEmbed
  | generateContent
deriving DecidableEq

/-- How a modelled promise/async call settles. -/
inductive SampleOutcome where
  | resolved (frames : Nat)
  | rejected
  | hung
deriving DecidableEq

/-- The seek/capture loop of `extractFramesFromVideo` (source lines
278–293): while `captured < maxFrames`, seek and, when the seek
completes, capture a frame and continue; when the count is reached,
revoke the object URL and resolve.  A seek that raises `onerror`
rejects the promise; a seek whose callback never fires leaves the
promise unsettled (`hung`).  Neither failure branch revokes the URL. -/
def captureLoop (seeks : Nat → SeekBehavior) :
    Nat → Nat → SampleOutcome × List IOEvent
  | 0, captured => (.resolved captured, [.revokeObjectURL])
  | remaining + 1, captured =>
    match seeks captured with
    | .seeked =>
      let r := captureLoop seeks remaining (captured + 1)
      (r.1, .captureFrame captured :: r.2)
    | .errored => (.rejected, [])
    | .silent => (.hung, [])

/-- Embedding of `extractFramesFromVideo` (source lines 262–298): create
the object URL, then either fail to load (`onerror`, rejecting without
revoking) or run the capture loop. -/
def extractFramesFromVideo (v : VideoSpec) (maxFrames : Nat) :
    SampleOutcome × List IOEvent :=
  if v.loadOk then
    let r := captureLoop v.seeks maxFrames 0
    (r.1, .createObjectURL :: r.2)
  else (.rejected, [.createObjectURL])

/-- The oEmbed payload as used by the source: `data?.title` and
`data?.author_name` (absent keys modelled as `none`). -/
structure OEmbedData where
  title : Option String
  author_name : Option String

/-- One grounding chunk of the generation response: `chunk.web` may be
absent, and inside it `uri`/`title` may each be absent. -/
structure WebInfo where
  uri : Option String
  title : Option String

/-- A grounding chunk (`chunk.web` may be absent). -/
structure ChunkWeb where
  web : Option WebInfo

/-- Environment of one link-path request: the credential lookup result
and the values the two external calls would return.  `oembed = none`
models a network failure, a non-2xx status or an unreadable body of the
metadata fetch (all returned as `null` by `fetchYouTubeOEmbed`). -/
structure WebEnv where
  apiKey : Option String
  oembed : Option OEmbedData
  genText : String
  groundingChunks : List ChunkWeb

/-- The terminal errors of the pipelines, one per distinct `throw` site
of the source (each carrying the data interpolated into its message). -/
inductive PipelineError where
  | invalidLink
  | unverifiableVideo
  | missingCredential
  | unparsableResponse
  | modelDeclared (err : JValue)
  | missingVideoId
  | videoIdMismatch (returned : JValue) (expected : String)
  | titleMismatch
  | frameExtractionFailed

/-- Result of a pipeline run: a returned document, a thrown error, or an
async chain that never settles (a hung frame-sampler seek). -/
inductive Outcome where
  | ok (doc : JValue)
  | fail (e : PipelineError)
  | diverged

/-- `sources.push({title: chunk.web.title, uri: chunk.web.uri})` for
every chunk whose `web.uri` is truthy (source lines 238–245). -/
def collectSources (chunks : List ChunkWeb) : List GroundingSource :=
  chunks.foldr
    (fun c acc =>
      match c.web with
      | some w =>
        match w.uri with
        | some u => if u ≠ "" then ⟨w.title, u⟩ :: acc else acc
        | none => acc
      | none => acc)
    []

/-- A JSON encoding of a reconciled source (`{title, uri}`; an absent
title leaves the key out). -/
def sourceToJVal (s : GroundingSource) : JValue :=
  .jobj ((match s.title with
          | some t => [("title", JValue.jstr t)]
          | none => []) ++ [("uri", JValue.jstr s.uri)])

/-- The tail of `webGuards` from guard 3 (`analysis.videoUrl = youtubeUrl`)
onwards. -/
def webGuardsPinned (youtubeUrl expectedVideoId oembedTitle : String)
    (chunks : List ChunkWeb) (analysis0 : JValue) : Outcome :=
  let analysis := setField analysis0 "videoUrl" (.jstr youtubeUrl)
  match getField analysis "videoId" with
  | none => .fail .missingVideoId
  | some v =>
    if truthy v = false then .fail .missingVideoId
    else
      let idMatches : Bool :=
        match v with
        | .jstr s => s = expectedVideoId
        | _ => false
      if idMatches = false then .fail (.videoIdMismatch v expectedVideoId)
      else
        match getField analysis "videoTitle" with
        | some (.jstr vt) =>
          if titlesLooselyMatch oembedTitle vt then
            let uniqueSources := reconcile youtubeUrl (collectSources chunks)
            .ok (setField analysis "sources" (.jarr (uniqueSources.map sourceToJVal)))
          else .fail .titleMismatch
        | _ => .fail .titleMismatch

/-- Guards 3–5 plus source reconciliation of `getAnalysisFromWeb`
(source lines 203–259), applied to the generation response text:
decode, reject falsy/undecodable results, surface a truthy
model-declared `error`, pin `videoUrl` to the original URL, require a
truthy `videoId` strictly equal to the expected one, require a string
`videoTitle` loosely matching the verified oEmbed title, then attach the
reconciled sources. -/
def webGuards (youtubeUrl expectedVideoId oembedTitle : String)
    (chunks : List ChunkWeb) (genText : String) : Outcome :=
  match parseJsonResponse genText with
  | none => .fail .unparsableResponse
  | some analysis =>
    if truthy analysis = false then .fail .unparsableResponse
    else
      match getField analysis "error" with
      | some e =>
        if truthy e then .fail (.modelDeclared e)
        else webGuardsPinned youtubeUrl expectedVideoId oembedTitle chunks analysis
      | none => webGuardsPinned youtubeUrl expectedVideoId oembedTitle chunks analysis

/-- Embedding of `getAnalysisFromWeb` (source lines 101–260) over an
explicit environment, returning the outcome and the ordered I/O trace.
(The `mode` parameter only changes prompt wording and is not modelled.)
Guard 1 (extract) and guard 2 (oEmbed title present and truthy) run
before the credential lookup, which the source performs only at the
`getClient().models.generateContent` call. -/
def getAnalysisFromWeb (env : WebEnv) (youtubeUrl : String) :
    Outcome × List IOEvent :=
  match extractYouTubeId youtubeUrl with
  | none => (.fail .invalidLink, [])
  | some expectedVideoId =>
    match env.oembed with
    | none => (.fail .unverifiableVideo, [.fetchOEmbed])
    | some o =>
      match o.title with
      | none => (.fail .unverifiableVideo, [.fetchOEmbed])
      | some t =>
        if t = "" then (.fail .unverifiableVideo, [.fetchOEmbed])
        else
          match env.apiKey with
          | none => (.fail .missingCredential, [.fetchOEmbed])
          | some _ =>
            (webGuards youtubeUrl expectedVideoId t env.groundingChunks env.genText,
             [.fetchOEmbed, .generateContent])

/-- Environment of one file-path request. -/
structure FileEnv where
  apiKey : Option String
  genText : String

/-- An uploaded file: its name and the abstract behaviour of the video
element that plays its object URL. -/
structure FileInput where
  name : String
  video : VideoSpec

/-- Embedding of `getAnalysisFromFile` (source lines 300–329): sample
frames (a rejection propagates as the frame-extraction error; a hung
sampler leaves the whole call unsettled), look up the credential at the
generation call, decode the response, reject falsy/undecodable results,
then set `videoTitle` to the file name and make `videoUrl` absent.  The
source has no declared-error guard on this path. -/
def getAnalysisFromFile (env : FileEnv) (file : FileInput) :
    Outcome × List IOEvent :=
  let fr := extractFramesFromVideo file.video 20
  match fr.1 with
  | .rejected => (.fail .frameExtractionFailed, fr.2)
  | .hung => (.diverged, fr.2)
  | .resolved _ =>
    match env.apiKey with
    | none => (.fail .missingCredential, fr.2)
    | some _ =>
      let events := fr.2 ++ [.generateContent]
      match parseJsonResponse env.genText with
      | none => (.fail .unparsableResponse, events)
      | some analysis =>
        if truthy analysis = false then (.fail .unparsableResponse, events)
        else
          let analysis := setField analysis "videoTitle" (.jstr file.name)
          let analysis := delField analysis "videoUrl"
          (.ok analysis, events)

/-- Embedding of the exported `analyzeFootballMatch` dispatch
(source lines 331–334). -/
inductive MatchInput where
  | file (env : FileEnv) (f : FileInput)
  | link (env : WebEnv) (url : String)

/-- Dispatch on the request shape. -/
def analyzeFootballMatch : MatchInput → Outcome × List IOEvent
  | .file env f => getAnalysisFromFile env f
  | .link env url => getAnalysisFromWeb env url


/-! ### Helper lemmas -/

theorem lookup_setFields_self (fs : List (String × JValue)) (k : String) (v : JValue) :
    lookupField (setFields fs k v) k = some v := by
  induction fs with
  | nil => simp [setFields, lookupField]
  | cons hd tl ih =>
    by_cases h : hd.1 = k
    · simp [setFields, h, lookupField]
    · simp [setFields, h, lookupField, ih]

theorem lookup_setFields_ne (fs : List (String × JValue)) (k : String) (v : JValue)
    (k' : String) (h : k' ≠ k) :
    lookupField (setFields fs k v) k' = lookupField fs k' := by
  have hk : ¬ (k = k') := fun hh => h hh.symm
  induction fs with
  | nil => simp [setFields, lookupField, hk]
  | cons hd tl ih =>
    by_cases h1 : hd.1 = k
    · rw [setFields, if_pos h1, lookupField, lookupField, if_neg hk, h1, if_neg hk]
    · rw [setFields, if_neg h1, lookupField, lookupField]
      by_cases h2 : hd.1 = k'
      · rw [if_pos h2, if_pos h2]
      · rw [if_neg h2, if_neg h2, ih]

theorem lookup_removeKey_self (fs : List (String × JValue)) (k : String) :
    lookupField (removeKey k fs) k = none := by
  induction fs with
  | nil => simp [removeKey, lookupField]
  | cons hd tl ih =>
    rcases hd with ⟨k', v⟩
    by_cases h : k' = k
    · rw [removeKey, if_pos h, ih]
    · rw [removeKey, if_neg h, lookupField, if_neg h, ih]

theorem lookup_removeKey_ne (fs : List (String × JValue)) (k k' : String) (h : k' ≠ k) :
    lookupField (removeKey k fs) k' = lookupField fs k' := by
  induction fs with
  | nil => simp [removeKey]
  | cons hd tl ih =>
    rcases hd with ⟨k'', v⟩
    by_cases h1 : k'' = k
    · have h2 : ¬ (k'' = k') := by rw [h1]; exact fun hh => h hh.symm
      rw [removeKey, if_pos h1, ih, lookupField, if_neg h2]
    · rw [removeKey, if_neg h1, lookupField, lookupField]
      by_cases h2 : k'' = k'
      · rw [if_pos h2, if_pos h2]
      · rw [if_neg h2, if_neg h2, ih]

theorem nextAfterFirst_eq_none (k : String) :
    ∀ l : List String, k ∉ l.dropLast → nextAfterFirst k l = none
  | [] => fun _ => rfl
  | [a] => fun _ => by simp [nextAfterFirst]
  | a :: b :: rest => fun h => by
    have h' : k ∉ a :: (b :: rest).dropLast := h
    rw [List.mem_cons] at h'
    push_neg at h'
    rw [nextAfterFirst, if_neg (fun hh => h'.1 hh.symm)]
    exact nextAfterFirst_eq_none k (b :: rest) h'.2

/-! ### Claims about the Identifier Extractor -/

/-- C10: in `extractYouTubeId`, a non-empty `v` query parameter takes
precedence over every path-based shape — for every URL the model parser
accepts whose query string carries a non-empty `v` parameter, the
extractor returns that parameter's value, whatever the host and path
are. -/
theorem c10_v_param_precedence (url : String) (u : URLParts) (id : String)
    (h1 : parseURL url = some u) (h2 : getSearchParam "v" u.search = some id)
    (h3 : id ≠ "") : extractYouTubeId url = some id := by
  simp only [extractYouTubeId, h1, h2]
  rw [if_pos h3]

/-- C10 witness: on the shortened domain with a path identifier present,
the `v` parameter still wins (`"def"`, not `"abc"`). -/
theorem c10_v_param_precedence_witness :
    extractYouTubeId "https://youtu.be/abc?v=def" = some "def" :=
  c10_v_param_precedence "https://youtu.be/abc?v=def" ⟨"youtu.be", "/abc", "v=def"⟩
    "def" rfl rfl (by decide)

/-- C5: `extractYouTubeId` is a pure total Lean function (hence never
throws), and: (1) URLs the modelled URL parser rejects yield `none`;
(2) a non-empty `v` query parameter on any host yields that value;
(3) on a host ending in `youtu.be` (the shortened domain) without a
usable `v` parameter, the first non-empty path segment is returned;
(4)/(5) a `/shorts/<id>` or `/embed/<id>` path on a non-shortened host
without a usable `v` parameter yields `<id>`; (6) URLs with none of
these shapes (no usable `v`, not shortened-domain-with-segment, no
`shorts`/`embed` segment followed by another segment) yield `none`. -/
theorem c5_extractor_shapes :
    (∀ url, parseURL url = none → extractYouTubeId url = none) ∧
    (∀ url u id, parseURL url = some u → getSearchParam "v" u.search = some id →
      id ≠ "" → extractYouTubeId url = some id) ∧
    (∀ url u id, parseURL url = some u →
      (getSearchParam "v" u.search = none ∨ getSearchParam "v" u.search = some "") →
      endsWithStr u.hostname "youtu.be" = true →
      (pathSegs u.pathname).head? = some id →
      extractYouTubeId url = some id) ∧
    (∀ url u id, parseURL url = some u →
      (getSearchParam "v" u.search = none ∨ getSearchParam "v" u.search = some "") →
      endsWithStr u.hostname "youtu.be" = false →
      pathSegs u.pathname = ["shorts", id] →
      extractYouTubeId url = some id) ∧
    (∀ url u id, parseURL url = some u →
      (getSearchParam "v" u.search = none ∨ getSearchParam "v" u.search = some "") →
      endsWithStr u.hostname "youtu.be" = false →
      pathSegs u.pathname = ["embed", id] →
      extractYouTubeId url = some id) ∧
    (∀ url u, parseURL url = some u →
      (getSearchParam "v" u.search = none ∨ getSearchParam "v" u.search = some "") →
      (endsWithStr u.hostname "youtu.be" = false ∨ pathSegs u.pathname = []) →
      "shorts" ∉ (pathSegs u.pathname).dropLast →
      "embed" ∉ (pathSegs u.pathname).dropLast →
      extractYouTubeId url = none) := by
  have hext : ∀ url u, parseURL url = some u →
      (getSearchParam "v" u.search = none ∨ getSearchParam "v" u.search = some "") →
      extractYouTubeId url = extractFromPath u := by
    intro url u h1 hv
    rcases hv with hv | hv
    · simp only [extractYouTubeId, h1, hv]
    · simp only [extractYouTubeId, h1, hv]
      rw [if_neg (by simp)]
  refine ⟨?_, ?_, ?_, ?_, ?_, ?_⟩
  · intro url h
    simp only [extractYouTubeId, h]
  · intro url u id h1 h2 h3
    simp only [extractYouTubeId, h1, h2]
    rw [if_pos h3]
  · intro url u id h1 hv hbe hseg
    rw [hext url u h1 hv, extractFromPath, if_pos hbe, hseg]
  · intro url u id h1 hv hbe hsegs
    rw [hext url u h1 hv, extractFromPath, if_neg (by simp [hbe]), hsegs]
    simp [nextAfterFirst]
  · intro url u id h1 hv hbe hsegs
    rw [hext url u h1 hv, extractFromPath, if_neg (by simp [hbe]), hsegs]
    have hsh : nextAfterFirst "shorts" ["embed", id] = none := by
      rw [nextAfterFirst, if_neg (by decide)]
      rw [nextAfterFirst]
      split
      · rfl
      · rfl
    rw [hsh]
    simp [nextAfterFirst]
  · intro url u h1 hv hdisj hsh hem
    rw [hext url u h1 hv, extractFromPath]
    by_cases hbe : endsWithStr u.hostname "youtu.be" = true
    · rcases hdisj with hfalse | hempty
      · rw [hbe] at hfalse; exact Bool.noConfusion hfalse
      · rw [if_pos hbe, hempty]; rfl
    · rw [if_neg hbe, nextAfterFirst_eq_none _ _ hsh, nextAfterFirst_eq_none _ _ hem]

/-- C5 witness: one concrete URL per shape of the claim. -/
theorem c5_extractor_shapes_witness :
    extractYouTubeId "nonsense" = none ∧
    extractYouTubeId "https://www.youtube.com/watch?v=ABC123" = some "ABC123" ∧
    extractYouTubeId "https://youtu.be/dQw4w9WgXcQ" = some "dQw4w9WgXcQ" ∧
    extractYouTubeId "https://www.youtube.com/shorts/S1x" = some "S1x" ∧
    extractYouTubeId "https://www.youtube.com/embed/E2y" = some "E2y" ∧
    extractYouTubeId "https://example.com/watch" = none :=
  ⟨c5_extractor_shapes.1 "nonsense" rfl,
   c5_extractor_shapes.2.1 _ ⟨"www.youtube.com", "/watch", "v=ABC123"⟩ "ABC123"
     rfl rfl (by decide),
   c5_extractor_shapes.2.2.1 _ ⟨"youtu.be", "/dQw4w9WgXcQ", ""⟩ "dQw4w9WgXcQ"
     rfl (Or.inl rfl) (by decide) rfl,
   c5_extractor_shapes.2.2.2.1 _ ⟨"www.youtube.com", "/shorts/S1x", ""⟩ "S1x"
     rfl (Or.inl rfl) (by decide) rfl,
   c5_extractor_shapes.2.2.2.2.1 _ ⟨"www.youtube.com", "/embed/E2y", ""⟩ "E2y"
     rfl (Or.inl rfl) (by decide) rfl,
   c5_extractor_shapes.2.2.2.2.2 _ ⟨"example.com", "/watch", ""⟩
     rfl (Or.inl rfl) (Or.inl (by decide)) (by decide) (by decide)⟩

/-! ### Claims about I/O ordering and the frame sampler -/

theorem generateContent_not_mem_captureLoop (seeks : Nat → SeekBehavior) :
    ∀ r c, IOEvent.generateContent ∉ (captureLoop seeks r c).2 := by
  intro r
  induction r with
  | zero => intro c; simp [captureLoop]
  | succ n ih =>
    intro c
    cases hseek : seeks c with
    | seeked => simp [captureLoop, hseek]; exact ih (c + 1)
    | errored => simp [captureLoop, hseek]
    | silent => simp [captureLoop, hseek]

theorem generateContent_not_mem_frames (v : VideoSpec) (n : Nat) :
    IOEvent.generateContent ∉ (extractFramesFromVideo v n).2 := by
  by_cases h : v.loadOk
  · simp only [extractFramesFromVideo, if_pos h, List.mem_cons]
    rintro (hc | hc)
    · exact IOEvent.noConfusion hc
    · exact generateContent_not_mem_captureLoop v.seeks n 0 hc
  · simp [extractFramesFromVideo, h]

/-- C3: if the identifier extracts but the metadata verification fails
(the fetch returns nothing — network error, non-2xx status or unreadable
body — or the response carries no title), the link path fails with the
unverifiable-video error and the generation call is never performed. -/
theorem c3_unverifiable_blocks_generation (env : WebEnv) (url : String) (id : String)
    (hex : extractYouTubeId url = some id)
    (hoe : env.oembed = none ∨ ∃ o, env.oembed = some o ∧ o.title = none) :
    (getAnalysisFromWeb env url).1 = .fail .unverifiableVideo ∧
    IOEvent.generateContent ∉ (getAnalysisFromWeb env url).2 := by
  rcases hoe with hoe | ⟨o, hoe, hti⟩
  · simp only [getAnalysisFromWeb, hex, hoe]
    exact ⟨by trivial, by decide⟩
  · simp only [getAnalysisFromWeb, hex, hoe, hti]
    exact ⟨by trivial, by decide⟩

/-- C3 witness: a concrete failing metadata fetch. -/
theorem c3_unverifiable_blocks_generation_witness :
    (getAnalysisFromWeb ⟨some "key", none, "\x7b\x7d", []⟩
        "https://www.youtube.com/watch?v=ABC123").1 = .fail .unverifiableVideo ∧
    IOEvent.generateContent ∉
      (getAnalysisFromWeb ⟨some "key", none, "\x7b\x7d", []⟩
        "https://www.youtube.com/watch?v=ABC123").2 :=
  c3_unverifiable_blocks_generation ⟨some "key", none, "\x7b\x7d", []⟩
    "https://www.youtube.com/watch?v=ABC123" "ABC123" rfl (Or.inl rfl)

/-- Concrete environment with no generation credential but a healthy
metadata endpoint. -/
def envC4 : WebEnv := ⟨none, some ⟨some "Grand Final", none⟩, "", []⟩

/-- C4 counterexample: with no credential configured, the pipeline still
performs the metadata fetch — an I/O operation — and only then fails
with the missing-credential error, so it does not fail before any I/O as
claimed. -/
theorem c4_counterexample :
    envC4.apiKey = none ∧
    getAnalysisFromWeb envC4 "https://www.youtube.com/watch?v=ABC123" =
      (.fail .missingCredential, [.fetchOEmbed]) :=
  ⟨rfl, rfl⟩

/-- C4 amended: with no credential configured, the pipeline fails with
the missing-credential error at the generation step — after the metadata
fetch on the link path and after frame extraction on the file path — and
the generation call itself is never performed. -/
theorem c4_missing_credential_amended :
    (∀ env url id o t, env.apiKey = none → extractYouTubeId url = some id →
      env.oembed = some o → o.title = some t → t ≠ "" →
      (getAnalysisFromWeb env url).1 = .fail .missingCredential ∧
      IOEvent.generateContent ∉ (getAnalysisFromWeb env url).2 ∧
      IOEvent.fetchOEmbed ∈ (getAnalysisFromWeb env url).2) ∧
    (∀ env file k, env.apiKey = none →
      (extractFramesFromVideo file.video 20).1 = .resolved k →
      (getAnalysisFromFile env file).1 = .fail .missingCredential ∧
      IOEvent.generateContent ∉ (getAnalysisFromFile env file).2) := by
  constructor
  · intro env url id o t hak hex hoe hti ht
    have hres : getAnalysisFromWeb env url = (.fail .missingCredential, [.fetchOEmbed]) := by
      simp only [getAnalysisFromWeb, hex, hoe, hti, hak]
      rw [if_neg ht]
    rw [hres]
    exact ⟨rfl, by decide, by decide⟩
  · intro env file k hak hfr
    have hres : getAnalysisFromFile env file =
        (.fail .missingCredential, (extractFramesFromVideo file.video 20).2) := by
      simp only [getAnalysisFromFile, hfr, hak]
    rw [hres]
    exact ⟨rfl, generateContent_not_mem_frames file.video 20⟩

/-- C4 amended witness: concrete link-path run with no credential. -/
theorem c4_missing_credential_amended_witness :
    (getAnalysisFromWeb envC4 "https://www.youtube.com/watch?v=ABC123").1 =
      .fail .missingCredential ∧
    IOEvent.generateContent ∉
      (getAnalysisFromWeb envC4 "https://www.youtube.com/watch?v=ABC123").2 ∧
    IOEvent.fetchOEmbed ∈
      (getAnalysisFromWeb envC4 "https://www.youtube.com/watch?v=ABC123").2 :=
  c4_missing_credential_amended.1 envC4 "https://www.youtube.com/watch?v=ABC123"
    "ABC123" ⟨some "Grand Final", none⟩ "Grand Final" rfl rfl rfl rfl (by decide)

theorem captureLoop_revoke_iff (seeks : Nat → SeekBehavior) :
    ∀ r c, IOEvent.revokeObjectURL ∈ (captureLoop seeks r c).2 ↔
      ∃ k, (captureLoop seeks r c).1 = .resolved k := by
  intro r
  induction r with
  | zero =>
    intro c
    simp [captureLoop]
  | succ n ih =>
    intro c
    cases hseek : seeks c with
    | seeked =>
      simp only [captureLoop, hseek, List.mem_cons]
      rw [← ih (c + 1)]
      constructor
      · rintro (hc | hc)
        · exact IOEvent.noConfusion hc
        · exact hc
      · exact fun hc => Or.inr hc
    | errored => simp [captureLoop, hseek]
    | silent => simp [captureLoop, hseek]

/-- A video that loads but whose third seek raises `onerror`. -/
def c8Video : VideoSpec := ⟨true, fun i => if i < 2 then .seeked else .errored⟩

/-- C8 counterexample: a mid-loop failure rejects the sampling promise
without ever revoking the object URL (the release happens only on the
success path), so the handle is not released regardless of outcome as
claimed — the trace of the failing run contains `createObjectURL` and two
captures but no `revokeObjectURL`. -/
theorem c8_counterexample :
    (extractFramesFromVideo c8Video 5).1 = .rejected ∧
    IOEvent.revokeObjectURL ∉ (extractFramesFromVideo c8Video 5).2 ∧
    (extractFramesFromVideo c8Video 5).2 =
      [.createObjectURL, .captureFrame 0, .captureFrame 1] :=
  ⟨rfl, by decide, rfl⟩

/-- C8 amended: the object URL is released exactly when sampling runs to
successful completion (after the last capture); when loading fails, a
seek errors mid-loop, or a seek never completes, the handle is never
released. -/
theorem c8_revoke_iff_success (v : VideoSpec) (n : Nat) :
    IOEvent.revokeObjectURL ∈ (extractFramesFromVideo v n).2 ↔
      ∃ k, (extractFramesFromVideo v n).1 = .resolved k := by
  by_cases h : v.loadOk
  · simp only [extractFramesFromVideo, if_pos h, List.mem_cons]
    rw [← captureLoop_revoke_iff v.seeks n 0]
    constructor
    · rintro (hc | hc)
      · exact IOEvent.noConfusion hc
      · exact hc
    · exact fun hc => Or.inr hc
  · simp [extractFramesFromVideo, h]

/-! ### Claims about the Response Parser -/

/-- C6 counterexample: with prose that itself contains an opening brace
before a single balanced, decodable JSON object, the parser returns
no document instead of that object (the first-brace/last-brace substring
fails to decode), so arbitrary prose is not tolerated as claimed. -/
theorem c6_counterexample :
    parseJsonResponse "a\x7bb \x7b\"x\":1\x7d c" = none ∧
    jsonParse "\x7b\"x\":1\x7d" = some (.jobj [("x", .jnum "1")]) :=
  ⟨rfl, rfl⟩

/-- C6 amended: the parser extracts and decodes exactly the embedded
object provided the prose before it contains no opening brace and the
prose after it no closing brace; a text missing either brace, and a text
whose first-brace-to-last-brace substring fails to decode, yield no
document. -/
theorem c6_parser_amended :
    (∀ before obj after : String,
      lbrace ∉ before.toList → rbrace ∉ after.toList →
      obj.toList.head? = some lbrace → obj.toList.getLast? = some rbrace →
      parseJsonResponse (before ++ obj ++ after) = jsonParse obj) ∧
    (∀ text : String,
      ((∀ c ∈ text.toList, c ≠ lbrace) ∨ (∀ c ∈ text.toList, c ≠ rbrace)) →
      parseJsonResponse text = none) ∧
    (∀ text : String, ∀ s e : Nat, firstIdxOf lbrace text.toList = some s →
      lastIdxOf rbrace text.toList = some e →
      jsonParse (String.mk (jsSubstring text.toList s (e + 1))) = none →
      parseJsonResponse text = none) := by
  refine ⟨?_, ?_, ?_⟩
  · intro before obj after hb ha hh hl
    obtain ⟨t, ht⟩ := List.head?_eq_some_iff.mp hh
    obtain ⟨ini, hini⟩ := List.getLast?_eq_some_iff.mp hl
    have hOlen : 1 ≤ obj.toList.length := by rw [ht]; simp
    have hcs : (before ++ obj ++ after).toList =
        (before.toList ++ obj.toList) ++ after.toList := by
      simp [String.toList, String.data_append]
    have hfi : firstIdxOf lbrace ((before.toList ++ obj.toList) ++ after.toList) =
        some before.toList.length := by
      unfold firstIdxOf
      rw [List.findIdx?_append, List.findIdx?_append]
      have hB : List.findIdx? (· = lbrace) before.toList = none :=
        List.findIdx?_eq_none_iff.mpr (fun x hx => by
          simp only [decide_eq_false_iff_not]
          exact fun hxeq => hb (hxeq ▸ hx))
      have hO : List.findIdx? (· = lbrace) obj.toList = some 0 := by
        rw [ht, List.findIdx?_cons]
        simp
      rw [hB, hO]
      simp
    have hla : lastIdxOf rbrace ((before.toList ++ obj.toList) ++ after.toList) =
        some (before.toList.length + obj.toList.length - 1) := by
      unfold lastIdxOf firstIdxOf
      rw [List.reverse_append, List.reverse_append]
      have hA : List.findIdx? (· = rbrace) after.toList.reverse = none :=
        List.findIdx?_eq_none_iff.mpr (fun x hx => by
          simp only [decide_eq_false_iff_not]
          exact fun hxeq => ha (hxeq ▸ (List.mem_reverse.mp hx)))
      have hO : List.findIdx? (· = rbrace) obj.toList.reverse = some 0 := by
        rw [hini]
        simp [List.findIdx?_cons]
      rw [List.findIdx?_append, List.findIdx?_append, hA, hO]
      simp only [Option.or, Option.map_some', Option.none_or]
      congr 1
      simp only [List.length_append, List.length_reverse]
      omega
    have hsub : jsSubstring ((before.toList ++ obj.toList) ++ after.toList)
        before.toList.length (before.toList.length + obj.toList.length - 1 + 1) =
        obj.toList := by
      unfold jsSubstring
      have h1 : before.toList.length + obj.toList.length - 1 + 1 =
          before.toList.length + obj.toList.length := by omega
      rw [h1, min_eq_left (by omega), max_eq_right (by omega),
        List.take_left' (by simp), List.drop_left]
    simp only [parseJsonResponse, hcs, hfi, hla, hsub]
    rfl
  · intro text hdisj
    rcases hdisj with h | h
    · have hnone : firstIdxOf lbrace text.toList = none :=
        List.findIdx?_eq_none_iff.mpr (fun x hx => by
          simp only [decide_eq_false_iff_not]
          exact fun hxeq => (h x hx) hxeq)
      simp only [parseJsonResponse, hnone]
    · have hnone : lastIdxOf rbrace text.toList = none := by
        unfold lastIdxOf firstIdxOf
        have : List.findIdx? (· = rbrace) text.toList.reverse = none :=
          List.findIdx?_eq_none_iff.mpr (fun x hx => by
            simp only [decide_eq_false_iff_not]
            exact fun hxeq => (h x (List.mem_reverse.mp hx)) hxeq)
        rw [this]
      simp only [parseJsonResponse, hnone]
      cases firstIdxOf lbrace text.toList <;> rfl
  · intro text s e hs he hfail
    simp only [parseJsonResponse, hs, he]
    exact hfail

/-- C6 amended witness: concrete prose around a concrete object. -/
theorem c6_parser_amended_witness :
    parseJsonResponse ("Sure: " ++ "\x7b\"a\":1\x7d" ++ " done") =
      jsonParse "\x7b\"a\":1\x7d" ∧
    jsonParse "\x7b\"a\":1\x7d" = some (.jobj [("a", .jnum "1")]) :=
  ⟨c6_parser_amended.1 "Sure: " "\x7b\"a\":1\x7d" " done"
    (by decide) (by decide) (by decide) (by decide), rfl⟩

/-! ### Claims about the link-path identity guards -/

theorem webGuardsPinned_ok (u eid t : String) (chunks : List ChunkWeb)
    (a0 doc : JValue) (h : webGuardsPinned u eid t chunks a0 = .ok doc) :
    getField doc "videoUrl" = some (.jstr u) ∧
    getField doc "videoId" = some (.jstr eid) := by
  cases a0 with
  | jobj fs0 =>
    simp only [webGuardsPinned, setField, getField] at h
    cases hv : lookupField (setFields fs0 "videoUrl" (JValue.jstr u)) "videoId" with
    | none =>
      simp only [hv] at h
      exact Outcome.noConfusion h
    | some v =>
      simp only [hv] at h
      cases htr : truthy v with
      | false => simp [htr] at h
      | true =>
        simp only [htr] at h
        rw [if_neg (by simp)] at h
        cases v with
        | jstr s =>
          by_cases hs : s = eid
          · subst hs
            simp only [decide_eq_false_iff_not, Decidable.not_not] at h
            rw [if_neg (by simp)] at h
            split at h
            next vt hvt =>
              split at h
              next h3 =>
                cases h
                constructor
                · rw [getField, lookup_setFields_ne _ _ _ _ (by decide),
                    lookup_setFields_self]
                · rw [getField, lookup_setFields_ne _ _ _ _ (by decide)]
                  exact hv
              next h3 => exact Outcome.noConfusion h
            next hvt => exact Outcome.noConfusion h
          · simp [hs] at h
        | jnull => simp at h
        | jbool b => simp at h
        | jnum lex => simp at h
        | jarr es => simp at h
        | jobj fs => simp at h
  | jnull => simp [webGuardsPinned, setField, getField] at h
  | jbool b => simp [webGuardsPinned, setField, getField] at h
  | jnum lex => simp [webGuardsPinned, setField, getField] at h
  | jstr s => simp [webGuardsPinned, setField, getField] at h
  | jarr es => simp [webGuardsPinned, setField, getField] at h

theorem webGuards_ok (u eid t : String) (chunks : List ChunkWeb) (txt : String)
    (doc : JValue) (h : webGuards u eid t chunks txt = .ok doc) :
    getField doc "videoUrl" = some (.jstr u) ∧
    getField doc "videoId" = some (.jstr eid) := by
  simp only [webGuards] at h
  cases hp : parseJsonResponse txt with
  | none =>
    simp only [hp] at h
    exact Outcome.noConfusion h
  | some analysis =>
    simp only [hp] at h
    cases htr : truthy analysis with
    | false => simp [htr] at h
    | true =>
      simp only [htr] at h
      rw [if_neg (by simp)] at h
      cases herr : getField analysis "error" with
      | none =>
        simp only [herr] at h
        exact webGuardsPinned_ok u eid t chunks analysis doc h
      | some e =>
        simp only [herr] at h
        cases hte : truthy e with
        | true => simp [hte] at h
        | false =>
          simp only [hte] at h
          rw [if_neg (by simp)] at h
          exact webGuardsPinned_ok u eid t chunks analysis doc h

/-- C1: whenever the link path returns a document, that document's
`videoUrl` field is exactly the user-supplied URL and its `videoId`
field is exactly the identifier the extractor produced for that URL. -/
theorem c1_returned_document_identity (env : WebEnv) (url : String) (doc : JValue)
    (evs : List IOEvent) (h : getAnalysisFromWeb env url = (.ok doc, evs)) :
    ∃ id, extractYouTubeId url = some id ∧
      getField doc "videoUrl" = some (.jstr url) ∧
      getField doc "videoId" = some (.jstr id) := by
  cases hex : extractYouTubeId url with
  | none =>
    simp only [getAnalysisFromWeb, hex] at h
    simp at h
  | some id =>
    simp only [getAnalysisFromWeb, hex] at h
    cases ho : env.oembed with
    | none => simp only [ho] at h; simp at h
    | some o =>
      simp only [ho] at h
      cases ht : o.title with
      | none => simp only [ht] at h; simp at h
      | some tt =>
        simp only [ht] at h
        by_cases hte : tt = ""
        · simp [hte] at h
        · rw [if_neg hte] at h
          cases hak : env.apiKey with
          | none => simp only [hak] at h; simp at h
          | some kk =>
            simp only [hak] at h
            have hg : webGuards url id tt env.groundingChunks env.genText = .ok doc := by
              simpa using congrArg Prod.fst h
            exact ⟨id, rfl, webGuards_ok url id tt env.groundingChunks env.genText doc hg⟩

/-- Concrete successful link-path environment: matching title, echoed
identifier, one duplicate grounding source and one chunk without web
info. -/
def envC1 : WebEnv :=
  ⟨some "k", some ⟨some "Final: A vs B", some "Chan"⟩,
   "Sure: \x7b\"videoTitle\":\"Final: A vs B\",\"videoUrl\":\"https://bad\",\"videoId\":\"ABC123\",\"placar\":\"2-1\"\x7d done",
   [⟨some ⟨some "https://a", some "A"⟩⟩,
    ⟨some ⟨some "https://www.youtube.com/watch?v=ABC123", none⟩⟩, ⟨none⟩]⟩

/-- The document the pipeline returns on `envC1`: the model's wrong
`videoUrl` echo is overwritten with the original URL and the reconciled
sources are attached with the original video first. -/
def docC1 : JValue :=
  .jobj [("videoTitle", .jstr "Final: A vs B"),
         ("videoUrl", .jstr "https://www.youtube.com/watch?v=ABC123"),
         ("videoId", .jstr "ABC123"),
         ("placar", .jstr "2-1"),
         ("sources", .jarr [
            .jobj [("title", .jstr "YouTube (vídeo analisado)"),
                   ("uri", .jstr "https://www.youtube.com/watch?v=ABC123")],
            .jobj [("title", .jstr "A"), ("uri", .jstr "https://a")]])]

/-- C1 witness: a complete successful run. -/
theorem c1_returned_document_identity_witness :
    ∃ id, extractYouTubeId "https://www.youtube.com/watch?v=ABC123" = some id ∧
      getField docC1 "videoUrl" =
        some (.jstr "https://www.youtube.com/watch?v=ABC123") ∧
      getField docC1 "videoId" = some (.jstr id) :=
  c1_returned_document_identity envC1 "https://www.youtube.com/watch?v=ABC123"
    docC1 [.fetchOEmbed, .generateContent] rfl

/-- C2: once the link path decodes a document (an object) carrying no
truthy model-declared error — the earlier guards having passed — an
absent or empty identifier field terminates the pipeline with the
missing-identifier error, and a present, non-empty identifier different
from the expected one (string comparison, no normalization) terminates
it with the identifier-mismatch error carrying both values; no document
is returned. -/
theorem c2_identifier_guard (env : WebEnv) (url id : String) (o : OEmbedData)
    (t kk : String) (fs : List (String × JValue))
    (hex : extractYouTubeId url = some id)
    (hoe : env.oembed = some o) (hti : o.title = some t) (ht : t ≠ "")
    (hak : env.apiKey = some kk)
    (hp : parseJsonResponse env.genText = some (.jobj fs))
    (herr : ∀ e, lookupField fs "error" = some e → truthy e = false) :
    ((lookupField fs "videoId" = none ∨ lookupField fs "videoId" = some (.jstr "")) →
      (getAnalysisFromWeb env url).1 = .fail .missingVideoId) ∧
    (∀ s, lookupField fs "videoId" = some (.jstr s) → s ≠ "" → s ≠ id →
      (getAnalysisFromWeb env url).1 = .fail (.videoIdMismatch (.jstr s) id) ∧
      ∀ d, (getAnalysisFromWeb env url).1 ≠ .ok d) := by
  have hres : (getAnalysisFromWeb env url).1 =
      webGuards url id t env.groundingChunks env.genText := by
    simp only [getAnalysisFromWeb, hex, hoe, hti, hak]
    rw [if_neg ht]
  have hpin : webGuards url id t env.groundingChunks env.genText =
      webGuardsPinned url id t env.groundingChunks (.jobj fs) := by
    simp only [webGuards, hp]
    rw [if_neg (by simp [truthy])]
    cases he : lookupField fs "error" with
    | none => simp only [getField, he]
    | some e =>
      simp only [getField, he]
      rw [if_neg (by simp [herr e he])]
  rw [hres, hpin]
  constructor
  · intro hcase
    simp only [webGuardsPinned, setField, getField]
    rcases hcase with hnone | hempty
    · rw [lookup_setFields_ne _ _ _ _ (by decide), hnone]
    · rw [lookup_setFields_ne _ _ _ _ (by decide), hempty]
      simp [truthy]
  · intro s hvs hs0 hsid
    simp only [webGuardsPinned, setField, getField]
    rw [lookup_setFields_ne _ _ _ _ (by decide), hvs]
    constructor
    · simp [truthy, hs0, hsid]
    · intro d
      simp [truthy, hs0, hsid]

/-- Concrete environment whose model response echoes the wrong
identifier. -/
def envC2 : WebEnv :=
  ⟨some "k", some ⟨some "T", none⟩, "\x7b\"videoId\":\"XYZ999\"\x7d", []⟩

/-- C2 witness: the `XYZ999` vs `ABC123` mismatch of the spec. -/
theorem c2_identifier_guard_witness :
    (getAnalysisFromWeb envC2 "https://www.youtube.com/watch?v=ABC123").1 =
      .fail (.videoIdMismatch (.jstr "XYZ999") "ABC123") ∧
    ∀ d, (getAnalysisFromWeb envC2 "https://www.youtube.com/watch?v=ABC123").1 ≠
      .ok d :=
  (c2_identifier_guard envC2 "https://www.youtube.com/watch?v=ABC123" "ABC123"
    ⟨some "T", none⟩ "T" "k" [("videoId", .jstr "XYZ999")]
    rfl rfl rfl (by decide) rfl rfl
    (fun e he => by simp [lookupField] at he)).2
    "XYZ999" rfl (by decide) (by decide)

/-! ### Claims about the file path -/

/-- An uploaded file whose video loads and seeks normally. -/
def c7File : FileInput := ⟨"match.mp4", ⟨true, fun _ => .seeked⟩⟩

/-- A file-path environment whose model response declares an error. -/
def c7Env : FileEnv :=
  ⟨some "k",
   "\x7b\"error\":\"cannot identify\",\"videoTitle\":\"guess\",\"videoUrl\":\"https://x\"\x7d"⟩

/-- The decoded fields of `c7Env`'s model response. -/
def c7Fields : List (String × JValue) :=
  [("error", .jstr "cannot identify"), ("videoTitle", .jstr "guess"),
   ("videoUrl", .jstr "https://x")]

/-- C7 counterexample: the file path decodes a document carrying a
truthy model-declared error field, yet returns it as a success (title
forced to the file name, URL removed, the error field left inside) —
the declared error is not surfaced as an error outcome. -/
theorem c7_counterexample :
    parseJsonResponse c7Env.genText = some (.jobj c7Fields) ∧
    truthy (.jstr "cannot identify") = true ∧
    (getAnalysisFromFile c7Env c7File).1 =
      .ok (.jobj [("error", .jstr "cannot identify"),
                  ("videoTitle", .jstr "match.mp4")]) :=
  ⟨rfl, rfl, rfl⟩

/-- C7 amended: on the file path every decoded object document — with or
without a declared error field, which is never inspected — is returned
with `videoTitle` forcibly set to the uploaded file's name and the
`videoUrl` key absent; a declared error field survives unchanged in the
returned document instead of becoming an error outcome. -/
theorem c7_file_stamping_amended (env : FileEnv) (file : FileInput)
    (fs : List (String × JValue)) (k : Nat) (kk : String)
    (hfr : (extractFramesFromVideo file.video 20).1 = .resolved k)
    (hak : env.apiKey = some kk)
    (hp : parseJsonResponse env.genText = some (.jobj fs)) :
    (getAnalysisFromFile env file).1 =
      .ok (.jobj (removeKey "videoUrl"
        (setFields fs "videoTitle" (.jstr file.name)))) ∧
    lookupField (removeKey "videoUrl" (setFields fs "videoTitle" (.jstr file.name)))
      "videoTitle" = some (.jstr file.name) ∧
    lookupField (removeKey "videoUrl" (setFields fs "videoTitle" (.jstr file.name)))
      "videoUrl" = none ∧
    (∀ e, lookupField fs "error" = some e →
      lookupField (removeKey "videoUrl" (setFields fs "videoTitle" (.jstr file.name)))
        "error" = some e) := by
  refine ⟨?_, ?_, ?_, ?_⟩
  · simp only [getAnalysisFromFile, hfr, hak, hp, setField, delField]
    rw [if_neg (by simp [truthy])]
  · rw [lookup_removeKey_ne _ _ _ (by decide), lookup_setFields_self]
  · exact lookup_removeKey_self _ _
  · intro e he
    rw [lookup_removeKey_ne _ _ _ (by decide),
      lookup_setFields_ne _ _ _ _ (by decide)]
    exact he

/-- C7 amended witness: concrete file-path run (the one of the
counterexample, seen through the amended statement). -/
theorem c7_file_stamping_amended_witness :
    (getAnalysisFromFile c7Env c7File).1 =
      .ok (.jobj (removeKey "videoUrl"
        (setFields c7Fields "videoTitle" (.jstr c7File.name)))) ∧
    lookupField (removeKey "videoUrl" (setFields c7Fields "videoTitle" (.jstr c7File.name)))
      "videoTitle" = some (.jstr c7File.name) ∧
    lookupField (removeKey "videoUrl" (setFields c7Fields "videoTitle" (.jstr c7File.name)))
      "videoUrl" = none ∧
    (∀ e, lookupField c7Fields "error" = some e →
      lookupField (removeKey "videoUrl" (setFields c7Fields "videoTitle" (.jstr c7File.name)))
        "error" = some e) :=
  c7_file_stamping_amended c7Env c7File c7Fields 20 "k" rfl rfl rfl

/-! ### Claims about the Source Reconciler -/

/-- Proof-side recursive form of the positional filter of
`jsDedupFilter`: element at position `n` of the scan is kept iff its key
is non-empty and the first matching key in the whole array sits exactly
at `n`. -/
def filterIdx (all : List GroundingSource) : Nat → List GroundingSource →
    List GroundingSource
  | _, [] => []
  | n, s :: rest =>
    if keyOf s ≠ "" ∧ List.findIdx? (fun x => keyOf x = keyOf s) all = some n
    then s :: filterIdx all (n + 1) rest
    else filterIdx all (n + 1) rest

theorem jsDedup_eq_filterIdx (all : List GroundingSource) :
    ∀ (l : List GroundingSource) (n : Nat),
    ((List.enumFrom n l).filter (fun p =>
      decide (keyOf p.2 ≠ "") &&
      decide (List.findIdx? (fun s => keyOf s = keyOf p.2) all = some p.1))).map (·.2)
      = filterIdx all n l := by
  intro l
  induction l with
  | nil => intro n; rfl
  | cons s rest ih =>
    intro n
    rw [show List.enumFrom n (s :: rest) = (n, s) :: List.enumFrom (n + 1) rest from rfl]
    rw [List.filter_cons]
    by_cases hcond : keyOf s ≠ "" ∧
        List.findIdx? (fun x => keyOf x = keyOf s) all = some n
    · have hbool : (decide (keyOf (n, s).2 ≠ "") &&
          decide (List.findIdx? (fun x => keyOf x = keyOf (n, s).2) all =
            some (n, s).1)) = true := by
        simp only [Bool.and_eq_true, decide_eq_true_eq]
        exact hcond
      rw [if_pos hbool, List.map_cons, ih (n + 1), filterIdx, if_pos hcond]
    · have hbool : (decide (keyOf (n, s).2 ≠ "") &&
          decide (List.findIdx? (fun x => keyOf x = keyOf (n, s).2) all =
            some (n, s).1)) = false := by
        rw [Bool.eq_false_iff]
        intro htrue
        exact hcond (by simpa [Bool.and_eq_true, decide_eq_true_eq] using htrue)
      rw [if_neg (by rw [hbool]; exact Bool.false_ne_true), ih (n + 1), filterIdx,
        if_neg hcond]

/-- Invariant-carrying equivalence between the positional filter and the
seen-set deduplication. -/
theorem filterIdx_eq_dedupSeen :
    ∀ (suf pre : List GroundingSource) (seen : List String),
    (∀ ts, ts ≠ "" → (ts ∈ seen ↔ ∃ x ∈ pre, keyOf x = ts)) →
    filterIdx (pre ++ suf) pre.length suf = dedupSeen seen suf := by
  intro suf
  induction suf with
  | nil => intro pre seen _; rfl
  | cons s rest ih =>
    intro pre seen hinv
    have hre : pre ++ s :: rest = (pre ++ [s]) ++ rest := by simp
    have hlen : pre.length + 1 = (pre ++ [s]).length := by simp
    cases hpre : List.findIdx? (fun x => keyOf x = keyOf s) pre with
    | some i =>
      have hlt : i < pre.length :=
        (List.findIdx?_eq_some_iff_findIdx_eq.mp hpre).1
      have happ : List.findIdx? (fun x => keyOf x = keyOf s) (pre ++ s :: rest) =
          some i := by
        rw [List.findIdx?_append, hpre]
        rfl
      have hex : ∃ x ∈ pre, keyOf x = keyOf s := by
        by_contra hno
        push_neg at hno
        have hn : List.findIdx? (fun x => keyOf x = keyOf s) pre = none :=
          List.findIdx?_eq_none_iff.mpr (fun x hx => by simp [hno x hx])
        rw [hn] at hpre
        exact Option.noConfusion hpre
      have hdrop : keyOf s = "" ∨ keyOf s ∈ seen := by
        by_cases hkey : keyOf s = ""
        · exact Or.inl hkey
        · exact Or.inr ((hinv (keyOf s) hkey).mpr hex)
      rw [filterIdx, if_neg (fun hc => by
        rw [happ] at hc
        have := hc.2
        injection this with hii
        omega)]
      rw [dedupSeen, if_pos hdrop]
      rw [hre, hlen]
      exact ih (pre ++ [s]) seen (fun ts hts => by
        rw [hinv ts hts]
        constructor
        · rintro ⟨x, hx, hxk⟩
          exact ⟨x, List.mem_append_left _ hx, hxk⟩
        · rintro ⟨x, hx, hxk⟩
          rcases List.mem_append.mp hx with hx | hx
          · exact ⟨x, hx, hxk⟩
          · rcases List.mem_singleton.mp hx with rfl
            obtain ⟨x0, hx0, hx0k⟩ := hex
            exact ⟨x0, hx0, by rw [hx0k, hxk]⟩)
    | none =>
      have hall : ∀ x ∈ pre, keyOf x ≠ keyOf s := fun x hx => by
        have := List.findIdx?_eq_none_iff.mp hpre x hx
        simpa using this
      have happ : List.findIdx? (fun x => keyOf x = keyOf s) (pre ++ s :: rest) =
          some pre.length := by
        rw [List.findIdx?_append, hpre, Option.none_or, List.findIdx?_cons,
          if_pos (by simp)]
        simp
      by_cases hkey : keyOf s = ""
      · rw [filterIdx, if_neg (fun hc => hc.1 hkey)]
        rw [dedupSeen, if_pos (Or.inl hkey)]
        rw [hre, hlen]
        exact ih (pre ++ [s]) seen (fun ts hts => by
          rw [hinv ts hts]
          constructor
          · rintro ⟨x, hx, hxk⟩
            exact ⟨x, List.mem_append_left _ hx, hxk⟩
          · rintro ⟨x, hx, hxk⟩
            rcases List.mem_append.mp hx with hx | hx
            · exact ⟨x, hx, hxk⟩
            · rcases List.mem_singleton.mp hx with rfl
              exact absurd (hxk ▸ hkey) hts)
      · have hnotseen : keyOf s ∉ seen := fun hmem => by
          obtain ⟨x, hx, hxk⟩ := (hinv (keyOf s) hkey).mp hmem
          exact hall x hx hxk
        rw [filterIdx, if_pos ⟨hkey, happ⟩]
        rw [dedupSeen, if_neg (by
          rintro (hc | hc)
          · exact hkey hc
          · exact hnotseen hc)]
        rw [hre, hlen]
        congr 1
        exact ih (pre ++ [s]) (keyOf s :: seen) (fun ts hts => by
          constructor
          · intro hmem
            rcases List.mem_cons.mp hmem with rfl | hmem
            · exact ⟨s, List.mem_append_right _ (List.mem_singleton.mpr rfl), rfl⟩
            · obtain ⟨x, hx, hxk⟩ := (hinv ts hts).mp hmem
              exact ⟨x, List.mem_append_left _ hx, hxk⟩
          · rintro ⟨x, hx, hxk⟩
            rcases List.mem_append.mp hx with hx | hx
            · exact List.mem_cons_of_mem _ ((hinv ts hts).mpr ⟨x, hx, hxk⟩)
            · rcases List.mem_singleton.mp hx with rfl
              exact hxk ▸ List.mem_cons_self _ _)

theorem jsDedupFilter_eq_dedupSeen (l : List GroundingSource) :
    jsDedupFilter l = dedupSeen [] l := by
  rw [jsDedupFilter]
  rw [show l.enum = List.enumFrom 0 l from rfl]
  rw [jsDedup_eq_filterIdx l l 0]
  have h := filterIdx_eq_dedupSeen l [] [] (fun ts _ => by simp)
  simpa using h

theorem dedupSeen_idem (l : List GroundingSource) :
    ∀ seen : List String, dedupSeen seen (dedupSeen seen l) = dedupSeen seen l := by
  induction l with
  | nil => intro seen; rfl
  | cons s rest ih =>
    intro seen
    by_cases hdrop : keyOf s = "" ∨ keyOf s ∈ seen
    · rw [dedupSeen, if_pos hdrop, ih seen]
    · rw [dedupSeen, if_neg hdrop]
      rw [dedupSeen, if_neg hdrop]
      rw [ih (keyOf s :: seen)]

theorem mem_dedupSeen_key_ne (l : List GroundingSource) :
    ∀ (seen : List String) (s : GroundingSource),
    s ∈ dedupSeen seen l → keyOf s ≠ "" := by
  induction l with
  | nil => intro seen s h; exact absurd h (List.not_mem_nil s)
  | cons a rest ih =>
    intro seen s h
    by_cases hdrop : keyOf a = "" ∨ keyOf a ∈ seen
    · rw [dedupSeen, if_pos hdrop] at h
      exact ih seen s h
    · rw [dedupSeen, if_neg hdrop] at h
      rcases List.mem_cons.mp h with rfl | h
      · exact fun hc => hdrop (Or.inl hc)
      · exact ih (keyOf a :: seen) s h

/-- C9: the Source Reconciler is idempotent on its own output —
re-reconciling the reconciled list with its synthetic original-video
head removed reproduces the reconciled list exactly. -/
theorem c9_reconcile_idempotent (u : String) (xs : List GroundingSource) :
    reconcile u (removeSynthetic u (reconcile u xs)) = reconcile u xs := by
  have hrec : ∀ ys, reconcile u ys = dedupSeen [] (syntheticSource u :: ys) :=
    fun ys => by rw [reconcile, jsDedupFilter_eq_dedupSeen]
  by_cases hu : keyOf (syntheticSource u) = ""
  · have h1 : ∀ ys : List GroundingSource,
        dedupSeen [] (syntheticSource u :: ys) = dedupSeen [] ys :=
      fun ys => by rw [dedupSeen, if_pos (Or.inl hu)]
    have h2 : removeSynthetic u (dedupSeen [] xs) = dedupSeen [] xs := by
      cases hys : dedupSeen ([] : List String) xs with
      | nil => rfl
      | cons s0 rest =>
        rw [removeSynthetic, if_neg]
        intro hcontra
        have hk : keyOf s0 ≠ "" :=
          mem_dedupSeen_key_ne xs [] s0 (by rw [hys]; exact List.mem_cons_self _ _)
        rw [hcontra] at hk
        exact hk hu
    rw [hrec xs, h1 xs, h2, hrec (dedupSeen [] xs), h1 (dedupSeen [] xs)]
    exact dedupSeen_idem xs []
  · have h1 : ∀ ys : List GroundingSource,
        dedupSeen [] (syntheticSource u :: ys) =
          syntheticSource u :: dedupSeen [keyOf (syntheticSource u)] ys :=
      fun ys => by rw [dedupSeen, if_neg (by simp [hu])]
    rw [hrec xs, h1 xs, removeSynthetic, if_pos rfl,
      hrec (dedupSeen [keyOf (syntheticSource u)] xs),
      h1 (dedupSeen [keyOf (syntheticSource u)] xs)]
    exact congrArg _ (dedupSeen_idem xs [keyOf (syntheticSource u)])
